import Mathlib

/-!
# TSE-X402 utility functions

A shallow embedding of the utility functions of `src/TSE_X402.cpp`
(`TSE_FormatTime`, `TSE_ParseRemainingSeconds`, `TSE_ParseAccessGranted`,
`TSE_ParseCurrency`) together with the C library routines they call
(`sprintf` with `%d`, `strstr`, `strlen`, `atoi`).

A C string is modelled by the list of its characters before the terminating
NUL.  `unsigned long` and `int` are 32 bits wide, as on the boards the
library supports; `int` values are elements of `Int`, conversions wrap
explicitly.
-/

namespace TSE

/-! ## Machine integers -/

/-- Largest value of a 32-bit `int`. -/
def INT_MAX : Int := 2147483647

/-- Smallest value of a 32-bit `int`. -/
def INT_MIN : Int := -2147483648

/-- Conversion of an unsigned value to a 32-bit `int` (two's complement wrap). -/
def toInt32 (n : Nat) : Int :=
  if n % 2 ^ 32 < 2 ^ 31 then ((n % 2 ^ 32 : Nat) : Int)
  else ((n % 2 ^ 32 : Nat) : Int) - 2 ^ 32

/-! ## C library routines -/

/-- The conversion `%d` of `printf`: a signed decimal numeral without padding. -/
def fmtD (i : Int) : List Char :=
  if i < 0 then '-' :: Nat.toDigits 10 i.natAbs else Nat.toDigits 10 i.toNat

/-- The function `sprintf`, for format strings whose only conversion is `%d`:
the characters written to the buffer. -/
def sprintf : List Char → List Int → List Char
  | [], _ => []
  | '%' :: 'd' :: rest, a :: as => fmtD a ++ sprintf rest as
  | c :: rest, as => c :: sprintf rest as

/-- The function `strstr`: the suffix of `hay` that starts at the first
occurrence of `needle`, or `none` (the null pointer) when there is none. -/
def strstr (hay needle : List Char) : Option (List Char) :=
  if needle.isPrefixOf hay then some hay
  else
    match hay with
    | [] => none
    | _ :: cs => strstr cs needle

/-- The function `strlen`. -/
def strlen (s : List Char) : Nat := s.length

/-- The classification `isspace` in the C locale. -/
def isspace (c : Char) : Bool :=
  c = ' ' || c = '\t' || c = '\n' || c = '\x0b' || c = '\x0c' || c = '\r'

/-- The classification `isdigit`. -/
def isdigit (c : Char) : Bool := '0' ≤ c && c ≤ '9'

/-- The digit loop of `strtol` in base 10: the magnitude accumulated from the
leading digits of the input, starting from `acc`. -/
def atoiDigits : List Char → Nat → Nat
  | [], acc => acc
  | c :: cs, acc =>
    if isdigit c then atoiDigits cs (acc * 10 + (c.toNat - '0'.toNat)) else acc

/-- Conversion of a signed value to a 32-bit `int`: the value modulo `2^32`,
in two's complement (the identity on `INT_MIN .. INT_MAX`). -/
def intOfLong (i : Int) : Int := toInt32 (i % 2 ^ 32).toNat

/-- The function `atoi`: leading white space is skipped, one optional sign is
read, then the leading digits, and the signed value is returned as an `int`.
For a value outside `INT_MIN .. INT_MAX` the C standard leaves the result
undefined; here it wraps modulo `2^32`, as the source does nothing to guard
the call. -/
def atoi (s : List Char) : Int :=
  match s.dropWhile isspace with
  | '-' :: r => intOfLong (-(atoiDigits r 0 : Int))
  | '+' :: r => intOfLong (atoiDigits r 0 : Int)
  | r => intOfLong (atoiDigits r 0 : Int)

/-! ## The library -/

/-- The enumeration `TSE_Currency`. -/
inductive TSE_Currency where
  | CURRENCY_UNKNOWN
  | CURRENCY_TSE
  | CURRENCY_USDC
  deriving DecidableEq

open TSE_Currency

/-- The function `TSE_FormatTime`: the string written to `buffer`. -/
def TSE_FormatTime (seconds : Nat) : List Char :=
  let hours : Int := toInt32 (seconds / 3600)
  let minutes : Int := toInt32 ((seconds % 3600) / 60)
  let secs : Int := toInt32 (seconds % 60)
  if hours > 0 then
    sprintf "%dh %dm %ds".toList [hours, minutes, secs]
  else if minutes > 0 then
    sprintf "%dm %ds".toList [minutes, secs]
  else
    sprintf "%ds".toList [secs]

/-- The key searched by `TSE_ParseRemainingSeconds`. -/
def remainingSecondsKey : List Char := "\"remainingSeconds\":".toList

/-- The function `TSE_ParseRemainingSeconds`. -/
def TSE_ParseRemainingSeconds (json : List Char) : Int :=
  let key := remainingSecondsKey
  match strstr json key with
  | some pos => atoi (pos.drop (strlen key))
  | none => 0

/-- The function `TSE_ParseAccessGranted`. -/
def TSE_ParseAccessGranted (json : List Char) : Bool :=
  (strstr json "\"accessGranted\":true".toList).isSome

/-- The function `TSE_ParseCurrency`. -/
def TSE_ParseCurrency (json : List Char) : TSE_Currency :=
  if (strstr json "\"currency\":\"USDC\"".toList).isSome ||
      (strstr json "\"token\":\"USDC\"".toList).isSome then
    CURRENCY_USDC
  else if (strstr json "\"currency\":\"TSE\"".toList).isSome ||
      (strstr json "\"token\":\"TSE\"".toList).isSome then
    CURRENCY_TSE
  else
    CURRENCY_UNKNOWN

/-- The enumeration `TSE_DeviceType`. -/
inductive TSE_DeviceType where
  | DEVICE_COFFEE_MACHINE
  | DEVICE_BIKE_LOCK
  | DEVICE_DOOR_LOCK
  | DEVICE_POWER_SWITCH
  | DEVICE_EV_CHARGER
  | DEVICE_GENERIC
  deriving DecidableEq

/-- The integer value of an enumerator of `TSE_DeviceType`: enumerators count
from `0` in the order of their declaration. -/
def TSE_DeviceType.val : TSE_DeviceType → Int
  | DEVICE_COFFEE_MACHINE => 0
  | DEVICE_BIKE_LOCK => 1
  | DEVICE_DOOR_LOCK => 2
  | DEVICE_POWER_SWITCH => 3
  | DEVICE_EV_CHARGER => 4
  | DEVICE_GENERIC => 5

/-- The integer value of an enumerator of `TSE_Currency`. -/
def TSE_Currency.val : TSE_Currency → Int
  | CURRENCY_UNKNOWN => 0
  | CURRENCY_TSE => 1
  | CURRENCY_USDC => 2

open TSE_DeviceType

/-- The function `TSE_GetDeviceTypeString`, on the integer value of its
argument: a `switch` with five cases and a `default`. -/
def TSE_GetDeviceTypeString (type : Int) : List Char :=
  if type = DEVICE_COFFEE_MACHINE.val then "Coffee Machine".toList
  else if type = DEVICE_BIKE_LOCK.val then "Bike Lock".toList
  else if type = DEVICE_DOOR_LOCK.val then "Door Lock".toList
  else if type = DEVICE_POWER_SWITCH.val then "Power Switch".toList
  else if type = DEVICE_EV_CHARGER.val then "EV Charger".toList
  else "Generic Device".toList

/-- The function `TSE_GetCurrencyString`, on the integer value of its
argument: a `switch` with two cases and a `default`. -/
def TSE_GetCurrencyString (currency : Int) : List Char :=
  if currency = CURRENCY_TSE.val then "TSE (Solana)".toList
  else if currency = CURRENCY_USDC.val then "USDC (Base)".toList
  else "Unknown".toList

/-- The enumeration `TSE_SessionStatus`. -/
inductive TSE_SessionStatus where
  | SESSION_NONE
  | SESSION_PAYMENT_REQUIRED
  | SESSION_ACTIVE
  | SESSION_EXPIRED
  | SESSION_ENDED
  deriving DecidableEq

open TSE_SessionStatus

/-- The structure `TSE_Session`. -/
structure TSE_Session where
  accessGranted : Bool
  remainingSeconds : Int
  currency : TSE_Currency
  walletAddress : List Char
  txHash : List Char
  expiresAt : Nat

/-! ## The session state machine -/

/-- The state of the session state machine: the status, the session model and
the calls of the status-change callback (`TSE_SessionCallback`) made so far,
oldest first, each with its two arguments. -/
structure Machine where
  status : TSE_SessionStatus
  session : TSE_Session
  fired : List (TSE_SessionStatus × Int)

/-- What drives the state machine: a poll response received at local time
`now`, an evaluation of the local clock at time `now`, or an explicit end
request. -/
inductive Event where
  | poll (response : List Char) (now : Nat)
  | tick (now : Nat)
  | endRequest

/-- Modelled from the spec: the state machine before any poll (the source has
no initialisation code): status `None`, no access, no callback made. -/
def Machine.initial : Machine :=
  { status := SESSION_NONE,
    session := { accessGranted := false, remainingSeconds := 0, currency := CURRENCY_UNKNOWN,
                 walletAddress := [], txHash := [], expiresAt := 0 },
    fired := [] }

/-- Modelled from the spec: the update of the session model by a poll response
(the source has no update function).  The response parser yields
`accessGranted`, `remainingSeconds` and `currency`; `expiresAt` becomes
`now + remainingSeconds` only when access is granted; wallet address and
transaction hash are left as they are. -/
def updateSession (s : TSE_Session) (response : List Char) (now : Nat) : TSE_Session :=
  let granted := TSE_ParseAccessGranted response
  let remaining := TSE_ParseRemainingSeconds response
  { s with
    accessGranted := granted,
    remainingSeconds := remaining,
    currency := TSE_ParseCurrency response,
    expiresAt := if granted then ((now : Int) + remaining).toNat else s.expiresAt }

/-- Modelled from the spec: the transition function of the session state
machine (the source declares the status, the session and the callback type
only).  It follows the transition table: a poll without grant moves `None` to
`PaymentRequired`; a poll with grant moves `None`, `PaymentRequired`,
`Expired` and `Ended` to `Active` and notifies `(Active, remainingSeconds)`;
a clock evaluation at or after `expiresAt` moves `Active` to `Expired` and
notifies `(Expired, 0)`; an end request moves `Active`, `PaymentRequired` and
`Expired` to `Ended` and notifies `(Ended, 0)`.  Every other event leaves the
status as it is and notifies nothing. -/
def step (m : Machine) : Event → Machine
  | Event.poll response now =>
    let session := updateSession m.session response now
    if session.accessGranted then
      match m.status with
      | SESSION_ACTIVE => { m with session := session }
      | _ =>
        { status := SESSION_ACTIVE, session := session,
          fired := m.fired ++ [(SESSION_ACTIVE, session.remainingSeconds)] }
    else
      match m.status with
      | SESSION_NONE =>
        { status := SESSION_PAYMENT_REQUIRED, session := session,
          fired := m.fired ++ [(SESSION_PAYMENT_REQUIRED, session.remainingSeconds)] }
      | _ => { m with session := session }
  | Event.tick now =>
    match m.status with
    | SESSION_ACTIVE =>
      if m.session.expiresAt ≤ now then
        { m with status := SESSION_EXPIRED, fired := m.fired ++ [(SESSION_EXPIRED, 0)] }
      else m
    | _ => m
  | Event.endRequest =>
    match m.status with
    | SESSION_ACTIVE | SESSION_PAYMENT_REQUIRED | SESSION_EXPIRED =>
      { m with status := SESSION_ENDED, fired := m.fired ++ [(SESSION_ENDED, 0)] }
    | _ => m

/-! ## Specification vocabulary -/

/-- The text `text` contains `key`, and its first occurrence splits `text`
into `pre`, the key and `r`: no occurrence starts further left. -/
def FirstOcc (key text pre r : List Char) : Prop :=
  text = pre ++ key ++ r ∧
    ∀ pre' r' : List Char, text = pre' ++ key ++ r' → pre.length ≤ pre'.length

/-- No proper non-empty suffix of `key` is also a start of `key`: two
occurrences of `key` in a text never overlap. -/
def Unbordered (key : List Char) : Prop :=
  ∀ k < key.length, 0 < k → key.drop k ≠ key.take (key.length - k)

instance (key : List Char) : Decidable (Unbordered key) := by
  unfold Unbordered; infer_instance

/-- Value of a digit character. -/
def digitVal (c : Char) : Nat := c.toNat - '0'.toNat

/-- The decimal value of the maximal run of digits at the start of `r`
(`0` when the run is empty). -/
def digitRunValue (r : List Char) : Nat :=
  Nat.ofDigits 10 ((r.takeWhile isdigit).reverse.map digitVal)

/-- Reading a displayed duration back: the leading number, then by the unit
letter that follows it (`h`, `m` or anything else) the total in seconds. -/
def decodeTime (out : List Char) : Nat :=
  let a := atoiDigits out 0
  match out.dropWhile isdigit with
  | 'h' :: ' ' :: r =>
    let b := atoiDigits r 0
    match r.dropWhile isdigit with
    | 'm' :: ' ' :: r2 => 3600 * a + 60 * b + atoiDigits r2 0
    | _ => 3600 * a + 60 * b
  | 'm' :: ' ' :: r => 60 * a + atoiDigits r 0
  | _ => a

/-- The text that follows leading white space and one optional plus sign. -/
def skipSpacePlus (r : List Char) : List Char :=
  if (r.dropWhile isspace).head? = some '+' then (r.dropWhile isspace).tail
  else r.dropWhile isspace

/-! ## Lemmas on `strstr` -/

theorem strstr_nil (needle : List Char) :
    strstr [] needle = if needle.isPrefixOf [] then some [] else none := by
  rw [strstr]

theorem strstr_cons (c : Char) (cs needle : List Char) :
    strstr (c :: cs) needle =
      if needle.isPrefixOf (c :: cs) then some (c :: cs) else strstr cs needle := by
  rw [strstr]

theorem strstr_isSome_iff (hay needle : List Char) :
    (strstr hay needle).isSome = true ↔ needle <:+: hay := by
  induction hay with
  | nil =>
    rw [strstr_nil]
    cases needle <;> simp
  | cons c cs ih =>
    rw [strstr_cons, List.infix_cons_iff, ← ih]
    by_cases h : needle.isPrefixOf (c :: cs) = true
    · simp [h, List.isPrefixOf_iff_prefix.mp h]
    · have h' : ¬ needle <+: c :: cs := fun hp => h (List.isPrefixOf_iff_prefix.mpr hp)
      simp [h, h']

theorem strstr_eq_none_iff (hay needle : List Char) :
    strstr hay needle = none ↔ ¬ needle <:+: hay := by
  rw [← strstr_isSome_iff]
  cases strstr hay needle <;> simp

theorem strstr_of_prefix (hay needle : List Char) (h : needle <+: hay) :
    strstr hay needle = some hay := by
  have hp : needle.isPrefixOf hay = true := List.isPrefixOf_iff_prefix.mpr h
  cases hay with
  | nil => rw [strstr_nil, if_pos hp]
  | cons c cs => rw [strstr_cons, if_pos hp]

theorem strstr_of_firstOcc (key : List Char) :
    ∀ (pre text r : List Char), FirstOcc key text pre r →
      strstr text key = some (key ++ r) := by
  intro pre
  induction pre with
  | nil =>
    intro text r h
    obtain ⟨rfl, -⟩ := h
    rw [List.nil_append]
    exact strstr_of_prefix _ _ (List.prefix_append key r)
  | cons c p ih =>
    intro text r h
    obtain ⟨rfl, hmin⟩ := h
    have hnp : ¬ key.isPrefixOf (c :: (p ++ key ++ r)) = true := by
      intro hp
      obtain ⟨t, ht⟩ := List.isPrefixOf_iff_prefix.mp hp
      have := hmin [] t (by simpa using ht.symm)
      simp at this
    have hrec : FirstOcc key (p ++ key ++ r) p r := by
      refine ⟨rfl, ?_⟩
      intro pre' r' he
      have := hmin (c :: pre') r' (by simp [he])
      simpa using this
    have e : (c :: p) ++ key ++ r = c :: (p ++ key ++ r) := by simp
    rw [e, strstr_cons, if_neg hnp]
    exact ih _ _ hrec

theorem exists_firstOcc (key : List Char) :
    ∀ text : List Char, key <:+: text → ∃ pre r, FirstOcc key text pre r := by
  intro text
  induction text with
  | nil =>
    intro h
    have hk : key = [] := List.infix_nil.mp h
    exact ⟨[], [], by simp [hk], by intro pre' r' _; simp⟩
  | cons c cs ih =>
    intro h
    by_cases hp : key <+: c :: cs
    · obtain ⟨t, ht⟩ := hp
      exact ⟨[], t, by simpa using ht.symm, by intro pre' r' _; simp⟩
    · have hin : key <:+: cs := by
        rcases List.infix_cons_iff.mp h with h1 | h1
        · exact absurd h1 hp
        · exact h1
      obtain ⟨pre, r, he, hmin⟩ := ih hin
      refine ⟨c :: pre, r, by simp [he], ?_⟩
      intro pre' r' he'
      cases pre' with
      | nil => exact absurd ⟨r', by simpa using he'.symm⟩ hp
      | cons d q =>
        have hq : cs = q ++ key ++ r' := by
          have := he'
          simp at this
          simpa using this.2
        have := hmin q r' hq
        simpa using this

theorem firstOcc_unique (key text pre r pre' r' : List Char)
    (h : FirstOcc key text pre r) (h' : FirstOcc key text pre' r') :
    pre = pre' ∧ r = r' := by
  obtain ⟨he, hmin⟩ := h
  obtain ⟨he', hmin'⟩ := h'
  have h1 := hmin pre' r' he'
  have h2 := hmin' pre r he
  have hlen : pre.length = pre'.length := by omega
  rw [he, List.append_assoc, List.append_assoc] at he'
  obtain ⟨hp, hrest⟩ := List.append_inj he' hlen
  exact ⟨hp, List.append_cancel_left hrest⟩

theorem firstOcc_of_unbordered (key : List Char) (hk : Unbordered key)
    (pre r : List Char) (hpre : ¬ key <:+: pre) :
    FirstOcc key (pre ++ key ++ r) pre r := by
  refine ⟨rfl, ?_⟩
  intro pre' r' he
  by_contra hlt
  push_neg at hlt
  rw [List.append_assoc, List.append_assoc, List.append_eq_append_iff] at he
  rcases he with ⟨u, hu, he2⟩ | ⟨u, hu, he2⟩
  · have : pre'.length = pre.length + u.length := by rw [hu]; simp
    omega
  · -- pre = pre' ++ u, key ++ r' = u ++ (key ++ r)
    have hulen : 0 < u.length := by
      have : pre.length = pre'.length + u.length := by rw [hu]; simp
      omega
    rw [List.append_eq_append_iff] at he2
    rcases he2 with ⟨v, hv, -⟩ | ⟨v, hv, hv2⟩
    · -- u = key ++ v
      apply hpre
      rw [hu, hv]
      exact ⟨pre', v, by simp⟩
    · -- key = u ++ v, key ++ r = v ++ r'
      have hklen : key.length = u.length + v.length := by
        conv_lhs => rw [hv]
        simp
      have hvpos : 0 < v.length := by
        rcases v with _ | ⟨d, v'⟩
        · exfalso
          apply hpre
          rw [hu, hv]
          exact ⟨pre', [], by simp⟩
        · simp
      have hvk : v <+: key := by
        have h1 : v <+: key ++ r := ⟨r', hv2.symm⟩
        exact List.prefix_of_prefix_length_le h1 (List.prefix_append key r) (by omega)
      have hdrop : key.drop u.length = v := by
        conv_lhs => rw [hv]
        simp
      have htake : key.take (key.length - u.length) = v := by
        have : key.length - u.length = v.length := by omega
        rw [this]
        exact (List.prefix_iff_eq_take.mp hvk).symm
      exact hk u.length (by omega) hulen (hdrop.trans htake.symm)

/-! ## Lemmas on decimal numerals -/

theorem toDigitsCore_append (fuel : Nat) :
    ∀ (n : Nat) (ds : List Char),
      Nat.toDigitsCore 10 fuel n ds = Nat.toDigitsCore 10 fuel n [] ++ ds := by
  induction fuel with
  | zero => intro n ds; simp [Nat.toDigitsCore]
  | succ f ih =>
    intro n ds
    simp only [Nat.toDigitsCore]
    by_cases h : n / 10 = 0
    · simp [h]
    · simp only [h, if_false]
      rw [ih (n / 10) (Nat.digitChar (n % 10) :: ds), ih (n / 10) [Nat.digitChar (n % 10)]]
      simp

theorem toDigitsCore_fuel (f : Nat) :
    ∀ (g n : Nat) (ds : List Char), n < f → n < g →
      Nat.toDigitsCore 10 f n ds = Nat.toDigitsCore 10 g n ds := by
  induction f with
  | zero => intro g n ds h; omega
  | succ f ih =>
    intro g n ds hf hg
    cases g with
    | zero => omega
    | succ g =>
      simp only [Nat.toDigitsCore]
      by_cases h : n / 10 = 0
      · simp [h]
      · simp only [h, if_false]
        have h1 : n / 10 < n := Nat.div_lt_self (by omega) (by omega)
        exact ih g (n / 10) _ (by omega) (by omega)

theorem toDigits_lt_ten (n : Nat) (h : n < 10) :
    Nat.toDigits 10 n = [Nat.digitChar n] := by
  have h0 : n / 10 = 0 := by omega
  have h1 : n % 10 = n := by omega
  simp [Nat.toDigits, Nat.toDigitsCore, h0, h1]

theorem toDigits_ge_ten (n : Nat) (h : 10 ≤ n) :
    Nat.toDigits 10 n = Nat.toDigits 10 (n / 10) ++ [Nat.digitChar (n % 10)] := by
  have h0 : n / 10 ≠ 0 := by omega
  have h1 : n / 10 < n := Nat.div_lt_self (by omega) (by omega)
  unfold Nat.toDigits
  rw [Nat.toDigitsCore]
  simp only [h0, if_false]
  rw [toDigitsCore_append, toDigitsCore_fuel n (n / 10 + 1) (n / 10) [] h1 (by omega)]

theorem isdigit_digitChar (m : Nat) (h : m < 10) : isdigit (Nat.digitChar m) = true := by
  revert m; decide

theorem digitVal_digitChar (m : Nat) (h : m < 10) : digitVal (Nat.digitChar m) = m := by
  revert m; decide

theorem atoiDigits_toDigits (n : Nat) :
    ∀ (acc : Nat) (post : List Char),
      atoiDigits (Nat.toDigits 10 n ++ post) acc =
        atoiDigits post (acc * 10 ^ (Nat.toDigits 10 n).length + n) := by
  induction n using Nat.strong_induction_on with
  | _ n ih =>
    intro acc post
    by_cases h : n < 10
    · rw [toDigits_lt_ten n h]
      have hv : (Nat.digitChar n).toNat - 48 = n := digitVal_digitChar n h
      simp [atoiDigits, isdigit_digitChar n h, hv]
    · have h10 : 10 ≤ n := by omega
      have hlt : n / 10 < n := Nat.div_lt_self (by omega) (by omega)
      have hm : n % 10 < 10 := Nat.mod_lt _ (by omega)
      have hv := digitVal_digitChar (n % 10) hm
      unfold digitVal at hv
      rw [toDigits_ge_ten n h10, List.append_assoc, ih (n / 10) hlt]
      simp only [List.singleton_append, atoiDigits, isdigit_digitChar (n % 10) hm, if_true, hv,
        List.length_append, List.length_singleton]
      congr 1
      have := Nat.div_add_mod n 10
      rw [pow_succ]
      nlinarith [Nat.div_add_mod n 10]

theorem atoiDigits_of_not_digit (post : List Char) (acc : Nat)
    (h : ∀ c ∈ post.head?, isdigit c = false) : atoiDigits post acc = acc := by
  cases post with
  | nil => rfl
  | cons c cs =>
    have hc : isdigit c = false := h c (by simp)
    simp [atoiDigits, hc]

theorem atoiDigits_eq (r : List Char) :
    ∀ acc : Nat, atoiDigits r acc =
      acc * 10 ^ (r.takeWhile isdigit).length + digitRunValue r := by
  induction r with
  | nil => intro acc; simp [atoiDigits, digitRunValue]
  | cons c cs ih =>
    intro acc
    by_cases hc : isdigit c = true
    · have ih' := ih (acc * 10 + (c.toNat - '0'.toNat))
      unfold digitRunValue at ih' ⊢
      simp only [atoiDigits, hc, if_true, List.takeWhile_cons, List.reverse_cons, List.map_append,
        List.map_cons, List.map_nil, Nat.ofDigits_append, List.length_cons, List.length_map,
        List.length_reverse, Nat.ofDigits_singleton, digitVal]
      rw [ih']
      ring
    · simp [atoiDigits, hc, digitRunValue]

/-! ## Lemmas on the library functions -/

theorem toInt32_of_lt (n : Nat) (h : n < 2 ^ 31) : toInt32 n = (n : Int) := by
  have h1 : n % 2 ^ 32 = n := Nat.mod_eq_of_lt (by omega)
  unfold toInt32
  rw [h1, if_pos h]

theorem fmtD_natCast (n : Nat) : fmtD (n : Int) = (Nat.repr n).toList := by
  have h : ¬ ((n : Int) < 0) := by omega
  simp [fmtD, h, Nat.repr, String.toList, List.asString]

theorem sprintf_hms (a b c : Int) :
    sprintf "%dh %dm %ds".toList [a, b, c] =
      fmtD a ++ "h ".toList ++ fmtD b ++ "m ".toList ++ fmtD c ++ "s".toList := by
  simp [sprintf, String.toList]

theorem sprintf_ms (b c : Int) :
    sprintf "%dm %ds".toList [b, c] = fmtD b ++ "m ".toList ++ fmtD c ++ "s".toList := by
  simp [sprintf, String.toList]

theorem sprintf_s (c : Int) :
    sprintf "%ds".toList [c] = fmtD c ++ "s".toList := by
  simp [sprintf, String.toList]

theorem TSE_FormatTime_eq (s : Nat) (hs : s < 2 ^ 32) :
    TSE_FormatTime s =
      if 0 < s / 3600 then
        (Nat.repr (s / 3600)).toList ++ "h ".toList ++ (Nat.repr (s % 3600 / 60)).toList ++
          "m ".toList ++ (Nat.repr (s % 60)).toList ++ "s".toList
      else if 0 < s % 3600 / 60 then
        (Nat.repr (s % 3600 / 60)).toList ++ "m ".toList ++ (Nat.repr (s % 60)).toList ++
          "s".toList
      else (Nat.repr (s % 60)).toList ++ "s".toList := by
  unfold TSE_FormatTime
  rw [toInt32_of_lt (s / 3600) (by omega), toInt32_of_lt (s % 3600 / 60) (by omega),
    toInt32_of_lt (s % 60) (by omega)]
  simp only [sprintf_hms, sprintf_ms, sprintf_s, fmtD_natCast, gt_iff_lt, Nat.cast_pos]

theorem parseRemainingSeconds_of_firstOcc (text pre r : List Char)
    (h : FirstOcc remainingSecondsKey text pre r) :
    TSE_ParseRemainingSeconds text = atoi r := by
  unfold TSE_ParseRemainingSeconds
  simp only [strstr_of_firstOcc _ _ _ _ h, strlen, List.drop_left]

theorem parseRemainingSeconds_of_absent (text : List Char)
    (h : ¬ remainingSecondsKey <:+: text) : TSE_ParseRemainingSeconds text = 0 := by
  unfold TSE_ParseRemainingSeconds
  simp only [(strstr_eq_none_iff _ _).mpr h]

theorem unbordered_remainingSecondsKey : Unbordered remainingSecondsKey := by
  decide

theorem intOfLong_of_range (i : Int) (h1 : -2 ^ 31 ≤ i) (h2 : i < 2 ^ 31) :
    intOfLong i = i := by
  unfold intOfLong toInt32
  have hnn : 0 ≤ i % 2 ^ 32 := Int.emod_nonneg i (by norm_num)
  have hlt : i % 2 ^ 32 < 2 ^ 32 := Int.emod_lt_of_pos i (by norm_num)
  have hmod : (i % 2 ^ 32).toNat % 2 ^ 32 = (i % 2 ^ 32).toNat := Nat.mod_eq_of_lt (by omega)
  rw [hmod]
  split_ifs with hc <;> omega

theorem intOfLong_range (i : Int) : INT_MIN ≤ intOfLong i ∧ intOfLong i ≤ INT_MAX := by
  unfold intOfLong toInt32 INT_MIN INT_MAX
  have hlt : (i % 2 ^ 32).toNat % 2 ^ 32 < 2 ^ 32 := Nat.mod_lt _ (by norm_num)
  split_ifs with hc <;> omega

theorem atoi_range (s : List Char) : INT_MIN ≤ atoi s ∧ atoi s ≤ INT_MAX := by
  unfold atoi
  split <;> exact intOfLong_range _

theorem atoi_of_plain (r : List Char)
    (h : ∀ c ∈ r.head?, isspace c = false ∧ c ≠ '+' ∧ c ≠ '-') :
    atoi r = intOfLong (atoiDigits r 0 : Int) := by
  cases r with
  | nil => simp [atoi]
  | cons c cs =>
    obtain ⟨h1, h2, h3⟩ := h c (by simp)
    unfold atoi
    rw [List.dropWhile_cons_of_neg (by simp [h1])]
    split
    · rename_i heq; simp at heq; exact absurd heq.1 h3
    · rename_i heq; simp at heq; exact absurd heq.1 h2
    · rfl

theorem atoi_of_no_minus (s : List Char) (h : (s.dropWhile isspace).head? ≠ some '-') :
    atoi s = intOfLong (digitRunValue (skipSpacePlus s) : Int) := by
  unfold atoi skipSpacePlus
  split
  · rename_i heq; rw [heq] at h; simp at h
  · rename_i t heq
    rw [heq]
    simp [atoiDigits_eq t 0]
  · rename_i l hminus hplus
    have hne : (s.dropWhile isspace).head? ≠ some '+' := by
      intro hh
      cases hl : s.dropWhile isspace with
      | nil => rw [hl] at hh; simp at hh
      | cons c cs =>
        rw [hl] at hh
        simp at hh
        exact hplus cs (by rw [hl, hh])
    rw [if_neg hne]
    simp [atoiDigits_eq (s.dropWhile isspace) 0]

theorem atoi_nonneg (s : List Char) (h : (s.dropWhile isspace).head? ≠ some '-')
    (hrange : digitRunValue (skipSpacePlus s) ≤ 2 ^ 31 - 1) :
    0 ≤ atoi s := by
  rw [atoi_of_no_minus s h, intOfLong_of_range _ (by omega) (by omega)]
  omega

theorem toDigits_head (n : Nat) :
    ∃ d, d < 10 ∧ ∃ t, Nat.toDigits 10 n = Nat.digitChar d :: t := by
  induction n using Nat.strong_induction_on with
  | _ n ih =>
    by_cases h : n < 10
    · exact ⟨n, h, [], toDigits_lt_ten n h⟩
    · obtain ⟨d, hd, t, ht⟩ := ih (n / 10) (Nat.div_lt_self (by omega) (by omega))
      exact ⟨d, hd, t ++ [Nat.digitChar (n % 10)], by
        rw [toDigits_ge_ten n (by omega), ht]; rfl⟩

theorem digitChar_plain (d : Nat) (h : d < 10) :
    isspace (Nat.digitChar d) = false ∧ Nat.digitChar d ≠ '+' ∧ Nat.digitChar d ≠ '-' := by
  revert d; decide

theorem atoi_toDigits (n : Nat) (hn : n ≤ 2 ^ 31 - 1) (post : List Char)
    (hpost : ∀ c ∈ post.head?, isdigit c = false) :
    atoi (Nat.toDigits 10 n ++ post) = (n : Int) := by
  obtain ⟨d, hd, t, ht⟩ := toDigits_head n
  have hplain : ∀ c ∈ (Nat.toDigits 10 n ++ post).head?,
      isspace c = false ∧ c ≠ '+' ∧ c ≠ '-' := by
    intro c hc
    rw [ht] at hc
    simp at hc
    rw [← hc]
    exact digitChar_plain d hd
  rw [atoi_of_plain _ hplain, atoiDigits_toDigits, atoiDigits_of_not_digit _ _ hpost]
  simp only [zero_mul, zero_add]
  exact intOfLong_of_range _ (by omega) (by omega)

theorem TSE_ParseCurrency_cases (text : List Char) :
    TSE_ParseCurrency text =
      if "\"currency\":\"USDC\"".toList <:+: text ∨ "\"token\":\"USDC\"".toList <:+: text then
        CURRENCY_USDC
      else if "\"currency\":\"TSE\"".toList <:+: text ∨ "\"token\":\"TSE\"".toList <:+: text then
        CURRENCY_TSE
      else CURRENCY_UNKNOWN := by
  unfold TSE_ParseCurrency
  simp only [Bool.or_eq_true, strstr_isSome_iff]

theorem toDigits_all_digit (n : Nat) : ∀ c ∈ Nat.toDigits 10 n, isdigit c = true := by
  induction n using Nat.strong_induction_on with
  | _ n ih =>
    intro c hc
    by_cases h : n < 10
    · rw [toDigits_lt_ten n h] at hc
      simp only [List.mem_singleton] at hc
      rw [hc]
      exact isdigit_digitChar n h
    · rw [toDigits_ge_ten n (by omega), List.mem_append, List.mem_singleton] at hc
      rcases hc with hc | hc
      · exact ih (n / 10) (Nat.div_lt_self (by omega) (by omega)) c hc
      · rw [hc]
        exact isdigit_digitChar (n % 10) (Nat.mod_lt _ (by omega))

theorem repr_all_digit (n : Nat) : ∀ c ∈ (Nat.repr n).toList, isdigit c = true :=
  toDigits_all_digit n

theorem dropWhile_digits_append (l post : List Char) (hl : ∀ c ∈ l, isdigit c = true)
    (hpost : ∀ c ∈ post.head?, isdigit c = false) :
    (l ++ post).dropWhile isdigit = post := by
  induction l with
  | nil =>
    cases post with
    | nil => rfl
    | cons c cs =>
      have hc : isdigit c = false := hpost c (by simp)
      simp [List.dropWhile, hc]
  | cons d l ih =>
    have hd : isdigit d = true := hl d (by simp)
    have hl' : ∀ c ∈ l, isdigit c = true := fun c hc => hl c (by simp [hc])
    simp only [List.cons_append, List.dropWhile_cons, hd, if_true]
    exact ih hl'

theorem atoiDigits_repr (n : Nat) (post : List Char)
    (hpost : ∀ c ∈ post.head?, isdigit c = false) :
    atoiDigits ((Nat.repr n).toList ++ post) 0 = n := by
  have h := atoiDigits_toDigits n 0 post
  rw [atoiDigits_of_not_digit post _ hpost] at h
  simpa using h

theorem dropWhile_repr (n : Nat) (post : List Char)
    (hpost : ∀ c ∈ post.head?, isdigit c = false) :
    ((Nat.repr n).toList ++ post).dropWhile isdigit = post :=
  dropWhile_digits_append _ post (repr_all_digit n) hpost

theorem decodeTime_hms (h m c : Nat) :
    decodeTime ((Nat.repr h).toList ++ "h ".toList ++ (Nat.repr m).toList ++ "m ".toList ++
      (Nat.repr c).toList ++ "s".toList) = 3600 * h + 60 * m + c := by
  have e : (Nat.repr h).toList ++ "h ".toList ++ (Nat.repr m).toList ++ "m ".toList ++
      (Nat.repr c).toList ++ "s".toList =
      (Nat.repr h).toList ++ ('h' :: ' ' :: ((Nat.repr m).toList ++
        ('m' :: ' ' :: ((Nat.repr c).toList ++ ['s'])))) := by
    simp [String.toList]
  rw [e]
  unfold decodeTime
  rw [dropWhile_repr h _ (by simp [isdigit]), atoiDigits_repr h _ (by simp [isdigit])]
  simp only
  rw [dropWhile_repr m _ (by simp [isdigit]), atoiDigits_repr m _ (by simp [isdigit])]
  simp only
  rw [atoiDigits_repr c _ (by simp [isdigit])]

theorem decodeTime_ms (m c : Nat) :
    decodeTime ((Nat.repr m).toList ++ "m ".toList ++ (Nat.repr c).toList ++ "s".toList) =
      60 * m + c := by
  have e : (Nat.repr m).toList ++ "m ".toList ++ (Nat.repr c).toList ++ "s".toList =
      (Nat.repr m).toList ++ ('m' :: ' ' :: ((Nat.repr c).toList ++ ['s'])) := by
    simp [String.toList]
  rw [e]
  unfold decodeTime
  rw [dropWhile_repr m _ (by simp [isdigit]), atoiDigits_repr m _ (by simp [isdigit])]
  simp only
  rw [atoiDigits_repr c _ (by simp [isdigit])]

theorem decodeTime_s (c : Nat) :
    decodeTime ((Nat.repr c).toList ++ "s".toList) = c := by
  have e : (Nat.repr c).toList ++ "s".toList = (Nat.repr c).toList ++ ['s'] := by
    simp [String.toList]
  rw [e]
  unfold decodeTime
  rw [dropWhile_repr c _ (by simp [isdigit]), atoiDigits_repr c _ (by simp [isdigit])]
  rfl

theorem decodeTime_formatTime (s : Nat) (hs : s < 2 ^ 32) :
    decodeTime (TSE_FormatTime s) = s := by
  rw [TSE_FormatTime_eq s hs]
  split_ifs with h1 h2
  · rw [decodeTime_hms]; omega
  · rw [decodeTime_ms]; omega
  · rw [decodeTime_s]; omega

/-! ## The time formatter -/

/-- C1: for every `s < 2^32`, with `h = s / 3600`, `m = (s % 3600) / 60` and
`c = s % 60` rendered in decimal without padding, `TSE_FormatTime s` is
`"{h}h {m}m {c}s"` when `h > 0`, `"{m}m {c}s"` when `h = 0` and `m > 0`, and
`"{c}s"` otherwise; `45` gives `45s`, `125` gives `2m 5s`, `3725` gives
`1h 2m 5s`. -/
theorem TSE_FormatTime_spec :
    (∀ s : Nat, s < 2 ^ 32 →
      TSE_FormatTime s =
        (if s / 3600 > 0 then
          toString (s / 3600) ++ "h " ++ toString (s % 3600 / 60) ++ "m " ++
            toString (s % 60) ++ "s"
        else if s % 3600 / 60 > 0 then
          toString (s % 3600 / 60) ++ "m " ++ toString (s % 60) ++ "s"
        else toString (s % 60) ++ "s").toList) ∧
    TSE_FormatTime 45 = "45s".toList ∧
    TSE_FormatTime 125 = "2m 5s".toList ∧
    TSE_FormatTime 3725 = "1h 2m 5s".toList := by
  refine ⟨?_, by decide, by decide, by decide⟩
  intro s hs
  rw [TSE_FormatTime_eq s hs]
  simp only [toString, gt_iff_lt]
  split_ifs <;> simp [String.toList]

/-- C1, at `s = 3725`: one hour, two minutes, five seconds. -/
theorem TSE_FormatTime_spec_witness :
    3725 < 2 ^ 32 ∧ TSE_FormatTime 3725 =
      (if 3725 / 3600 > 0 then
          toString (3725 / 3600) ++ "h " ++ toString (3725 % 3600 / 60) ++ "m " ++
            toString (3725 % 60) ++ "s"
        else if 3725 % 3600 / 60 > 0 then
          toString (3725 % 3600 / 60) ++ "m " ++ toString (3725 % 60) ++ "s"
        else toString (3725 % 60) ++ "s").toList :=
  ⟨by decide, TSE_FormatTime_spec.1 3725 (by decide)⟩

/-- C9: at `s = 3600003599`, a value of a 32-bit `unsigned long`,
`TSE_FormatTime` writes the 16 characters `1000000h 59m 59s`; with the
terminating NUL that is 17, one more than the documented minimum buffer of 16
characters. -/
theorem TSE_FormatTime_exceeds_buffer :
    3600003599 < 2 ^ 32 ∧
    TSE_FormatTime 3600003599 = "1000000h 59m 59s".toList ∧
    16 < (TSE_FormatTime 3600003599).length + 1 := by
  decide

/-- C10: for every `s`, the output of `TSE_FormatTime s` ends with the decimal
rendering of `s % 60` followed by the letter `s`. -/
theorem TSE_FormatTime_ends_with_seconds (s : Nat) :
    (toString (s % 60) ++ "s").toList <:+ TSE_FormatTime s := by
  have e : (toString (s % 60) ++ "s").toList = fmtD ((s % 60 : Nat) : Int) ++ "s".toList := by
    rw [fmtD_natCast]
    simp [String.toList, toString]
  rw [e]
  unfold TSE_FormatTime
  rw [toInt32_of_lt (s % 60) (by omega)]
  simp only [sprintf_hms, sprintf_ms, sprintf_s]
  split_ifs
  · exact ⟨_, (List.append_assoc _ _ _).symm⟩
  · exact ⟨_, (List.append_assoc _ _ _).symm⟩
  · exact List.suffix_refl _

/-! ## The response parser: flags and currency -/

/-- C2: `TSE_ParseAccessGranted text` is true exactly when `text` contains
`"accessGranted":true` as a contiguous substring; it is true for
`{"accessGranted":true}`, false for `{"accessGranted":false}` and for `{}`. -/
theorem TSE_ParseAccessGranted_iff :
    (∀ text : List Char,
      TSE_ParseAccessGranted text = true ↔ "\"accessGranted\":true".toList <:+: text) ∧
    TSE_ParseAccessGranted "\x7b\"accessGranted\":true\x7d".toList = true ∧
    TSE_ParseAccessGranted "\x7b\"accessGranted\":false\x7d".toList = false ∧
    TSE_ParseAccessGranted "\x7b\x7d".toList = false := by
  refine ⟨?_, by decide, by decide, by decide⟩
  intro text
  unfold TSE_ParseAccessGranted
  exact strstr_isSome_iff _ _

/-- C7: `TSE_ParseCurrency text` is `CURRENCY_USDC` exactly when `text`
contains `"currency":"USDC"` or `"token":"USDC"`; so when a USDC pattern and
a TSE pattern are both present the result is USDC, whichever comes first. -/
theorem TSE_ParseCurrency_usdc_iff :
    (∀ text : List Char,
      TSE_ParseCurrency text = CURRENCY_USDC ↔
        ("\"currency\":\"USDC\"".toList <:+: text ∨ "\"token\":\"USDC\"".toList <:+: text)) ∧
    (∀ text : List Char,
      ("\"currency\":\"USDC\"".toList <:+: text ∨ "\"token\":\"USDC\"".toList <:+: text) →
      ("\"currency\":\"TSE\"".toList <:+: text ∨ "\"token\":\"TSE\"".toList <:+: text) →
        TSE_ParseCurrency text = CURRENCY_USDC) ∧
    TSE_ParseCurrency "\x7b\"currency\":\"TSE\",\"token\":\"USDC\"\x7d".toList = CURRENCY_USDC ∧
    TSE_ParseCurrency "\x7b\"token\":\"USDC\",\"currency\":\"TSE\"\x7d".toList = CURRENCY_USDC := by
  refine ⟨?_, ?_, by decide, by decide⟩
  · intro text
    rw [TSE_ParseCurrency_cases]
    split_ifs with h1 h2 <;> refine ⟨fun h => ?_, fun h => ?_⟩ <;>
      first | (cases h; done) | tauto
  · intro text h1 _
    rw [TSE_ParseCurrency_cases, if_pos h1]

/-- C7, at a text with the TSE pattern first and the USDC pattern second. -/
theorem TSE_ParseCurrency_usdc_iff_witness :
    ("\"currency\":\"USDC\"".toList <:+: "\x7b\"currency\":\"TSE\",\"token\":\"USDC\"\x7d".toList ∨
      "\"token\":\"USDC\"".toList <:+: "\x7b\"currency\":\"TSE\",\"token\":\"USDC\"\x7d".toList) ∧
    ("\"currency\":\"TSE\"".toList <:+: "\x7b\"currency\":\"TSE\",\"token\":\"USDC\"\x7d".toList ∨
      "\"token\":\"TSE\"".toList <:+: "\x7b\"currency\":\"TSE\",\"token\":\"USDC\"\x7d".toList) ∧
    TSE_ParseCurrency "\x7b\"currency\":\"TSE\",\"token\":\"USDC\"\x7d".toList = CURRENCY_USDC :=
  ⟨by decide, by decide, TSE_ParseCurrency_usdc_iff.2.1 _ (by decide) (by decide)⟩

/-- C8: `TSE_ParseCurrency text` is `CURRENCY_UNKNOWN` exactly when `text`
contains none of the four patterns, and `CURRENCY_TSE` exactly when it
contains a TSE pattern and no USDC pattern; `{"token":"USDC"}` gives USDC,
`{"currency":"TSE"}` gives TSE, `{}` gives Unknown, and a tag with another
value or spelling gives Unknown. -/
theorem TSE_ParseCurrency_unknown_tse_iff :
    (∀ text : List Char,
      TSE_ParseCurrency text = CURRENCY_UNKNOWN ↔
        (¬ "\"currency\":\"USDC\"".toList <:+: text ∧ ¬ "\"token\":\"USDC\"".toList <:+: text ∧
          ¬ "\"currency\":\"TSE\"".toList <:+: text ∧ ¬ "\"token\":\"TSE\"".toList <:+: text)) ∧
    (∀ text : List Char,
      TSE_ParseCurrency text = CURRENCY_TSE ↔
        (("\"currency\":\"TSE\"".toList <:+: text ∨ "\"token\":\"TSE\"".toList <:+: text) ∧
          ¬ ("\"currency\":\"USDC\"".toList <:+: text ∨ "\"token\":\"USDC\"".toList <:+: text))) ∧
    TSE_ParseCurrency "\x7b\"token\":\"USDC\"\x7d".toList = CURRENCY_USDC ∧
    TSE_ParseCurrency "\x7b\"currency\":\"TSE\"\x7d".toList = CURRENCY_TSE ∧
    TSE_ParseCurrency "\x7b\x7d".toList = CURRENCY_UNKNOWN ∧
    TSE_ParseCurrency "\x7b\"currency\":\"EUR\"\x7d".toList = CURRENCY_UNKNOWN ∧
    TSE_ParseCurrency "\x7b\"currency\": \"USDC\"\x7d".toList = CURRENCY_UNKNOWN ∧
    TSE_ParseCurrency "\x7b\"token\":\"usdc\"\x7d".toList = CURRENCY_UNKNOWN := by
  refine ⟨?_, ?_, by decide, by decide, by decide, by decide, by decide, by decide⟩
  · intro text
    rw [TSE_ParseCurrency_cases]
    split_ifs with h1 h2 <;> refine ⟨fun h => ?_, fun h => ?_⟩ <;>
      first | (cases h; done) | tauto
  · intro text
    rw [TSE_ParseCurrency_cases]
    split_ifs with h1 h2 <;> refine ⟨fun h => ?_, fun h => ?_⟩ <;>
      first | (cases h; done) | tauto

/-! ## The response parser: remaining seconds -/

/-- C3 (as stated, refuted): in `{"remainingSeconds": 90}` the character right
after the first occurrence of the key is a blank, so the run of digits that
immediately follows the key is empty and its value is `0`, yet
`TSE_ParseRemainingSeconds` returns `90`: `atoi` skips leading white space. -/
theorem TSE_ParseRemainingSeconds_blank_after_key :
    FirstOcc "\"remainingSeconds\":".toList "\x7b\"remainingSeconds\": 90\x7d".toList
      "\x7b".toList " 90\x7d".toList ∧
    " 90\x7d".toList.takeWhile isdigit = [] ∧
    digitRunValue " 90\x7d".toList = 0 ∧
    TSE_ParseRemainingSeconds "\x7b\"remainingSeconds\": 90\x7d".toList = 90 := by
  refine ⟨?_, by decide, by decide, by decide⟩
  exact firstOcc_of_unbordered remainingSecondsKey unbordered_remainingSecondsKey
    "\x7b".toList " 90\x7d".toList (by decide)

/-- A digit run whose value exceeds `INT_MAX` is not returned as its value: the
result of `TSE_ParseRemainingSeconds` always lies in `INT_MIN .. INT_MAX`, and
on `{"remainingSeconds":4294967296}`, where the run is worth `2^32`, it is `0`
here. -/
theorem TSE_ParseRemainingSeconds_out_of_range :
    (∀ text : List Char,
      INT_MIN ≤ TSE_ParseRemainingSeconds text ∧ TSE_ParseRemainingSeconds text ≤ INT_MAX) ∧
    digitRunValue "4294967296\x7d".toList = 2 ^ 32 ∧
    TSE_ParseRemainingSeconds "\x7b\"remainingSeconds\":4294967296\x7d".toList = 0 := by
  refine ⟨?_, by decide, by decide⟩
  intro text
  by_cases hk : remainingSecondsKey <:+: text
  · obtain ⟨pre, r, hocc⟩ := exists_firstOcc remainingSecondsKey text hk
    rw [parseRemainingSeconds_of_firstOcc text pre r hocc]
    exact atoi_range r
  · rw [parseRemainingSeconds_of_absent text hk]
    decide

/-- C3 (amended): when the text contains the key and the character right after
its first occurrence is not white space and not a sign, the result of
`TSE_ParseRemainingSeconds` is the decimal value of the maximal run of digits
that immediately follows the key, provided that value is at most `2^31 - 1`;
it is `0` when that run is empty. -/
theorem TSE_ParseRemainingSeconds_digit_run (text pre r : List Char)
    (hocc : FirstOcc "\"remainingSeconds\":".toList text pre r)
    (hhead : ∀ c ∈ r.head?, isspace c = false ∧ c ≠ '+' ∧ c ≠ '-')
    (hrange : digitRunValue r ≤ 2 ^ 31 - 1) :
    TSE_ParseRemainingSeconds text = (digitRunValue r : Int) ∧
      (r.takeWhile isdigit = [] → TSE_ParseRemainingSeconds text = 0) := by
  have hval : TSE_ParseRemainingSeconds text = (digitRunValue r : Int) := by
    rw [parseRemainingSeconds_of_firstOcc text pre r hocc, atoi_of_plain r hhead,
      atoiDigits_eq r 0]
    simp only [zero_mul, zero_add]
    exact intOfLong_of_range _ (by omega) (by omega)
  refine ⟨hval, ?_⟩
  intro hrun
  rw [hval]
  simp [digitRunValue, hrun]

/-- C3 (amended), at `{"remainingSeconds":90}`: the digit run `90` follows the
key at once and the result is `90`. -/
theorem TSE_ParseRemainingSeconds_digit_run_witness :
    FirstOcc "\"remainingSeconds\":".toList "\x7b\"remainingSeconds\":90\x7d".toList
      "\x7b".toList "90\x7d".toList ∧
    (∀ c ∈ "90\x7d".toList.head?, isspace c = false ∧ c ≠ '+' ∧ c ≠ '-') ∧
    digitRunValue "90\x7d".toList ≤ 2 ^ 31 - 1 ∧
    (TSE_ParseRemainingSeconds "\x7b\"remainingSeconds\":90\x7d".toList =
        (digitRunValue "90\x7d".toList : Int) ∧
      ("90\x7d".toList.takeWhile isdigit = [] →
        TSE_ParseRemainingSeconds "\x7b\"remainingSeconds\":90\x7d".toList = 0)) :=
  ⟨firstOcc_of_unbordered remainingSecondsKey unbordered_remainingSecondsKey
      "\x7b".toList "90\x7d".toList (by decide),
    by decide, by decide,
    TSE_ParseRemainingSeconds_digit_run "\x7b\"remainingSeconds\":90\x7d".toList
      "\x7b".toList "90\x7d".toList
      (firstOcc_of_unbordered remainingSecondsKey unbordered_remainingSecondsKey
        "\x7b".toList "90\x7d".toList (by decide))
      (by decide) (by decide)⟩

/-- C4: for every text that does not contain `"remainingSeconds":`,
`TSE_ParseRemainingSeconds` returns `0`. -/
theorem TSE_ParseRemainingSeconds_absent (text : List Char)
    (h : ¬ "\"remainingSeconds\":".toList <:+: text) :
    TSE_ParseRemainingSeconds text = 0 :=
  parseRemainingSeconds_of_absent text h

/-- C4, at `{}`: the key is absent and the result is `0`. -/
theorem TSE_ParseRemainingSeconds_absent_witness :
    TSE_ParseRemainingSeconds "\x7b\x7d".toList = 0 :=
  TSE_ParseRemainingSeconds_absent "\x7b\x7d".toList (by decide)

/-- C5: for every `n ≤ 2^31 - 1`, `TSE_ParseRemainingSeconds` returns `n` on
`{"remainingSeconds":n}` with `n` in decimal, and also on every text
`pre ++ "remainingSeconds": ++ n ++ post` where `pre` does not contain the key
pattern and `post` does not start with a digit. -/
theorem TSE_ParseRemainingSeconds_roundtrip (n : Nat) (hn : n ≤ 2 ^ 31 - 1) :
    TSE_ParseRemainingSeconds
        ("\x7b\"remainingSeconds\":" ++ toString n ++ "\x7d").toList = (n : Int) ∧
    ∀ pre post : List Char, ¬ "\"remainingSeconds\":".toList <:+: pre →
      (∀ c ∈ post.head?, isdigit c = false) →
      TSE_ParseRemainingSeconds
        (pre ++ "\"remainingSeconds\":".toList ++ (toString n).toList ++ post) = (n : Int) := by
  have gen : ∀ pre post : List Char, ¬ "\"remainingSeconds\":".toList <:+: pre →
      (∀ c ∈ post.head?, isdigit c = false) →
      TSE_ParseRemainingSeconds
        (pre ++ "\"remainingSeconds\":".toList ++ (toString n).toList ++ post) = (n : Int) := by
    intro pre post hpre hpost
    have hocc := firstOcc_of_unbordered remainingSecondsKey unbordered_remainingSecondsKey
      pre ((toString n).toList ++ post) hpre
    have e : pre ++ "\"remainingSeconds\":".toList ++ (toString n).toList ++ post =
        pre ++ remainingSecondsKey ++ ((toString n).toList ++ post) := by
      rw [List.append_assoc _ (toString n).toList post]; rfl
    rw [e, parseRemainingSeconds_of_firstOcc _ _ _ hocc]
    exact atoi_toDigits n hn post hpost
  refine ⟨?_, gen⟩
  have h := gen "\x7b".toList "\x7d".toList (by decide) (by decide)
  have e : ("\x7b\"remainingSeconds\":" ++ toString n ++ "\x7d").toList =
      "\x7b".toList ++ "\"remainingSeconds\":".toList ++ (toString n).toList ++ "\x7d".toList := by
    simp [String.toList]
  rw [e]
  exact h

/-- C5, at `n = 90`. -/
theorem TSE_ParseRemainingSeconds_roundtrip_witness :
    TSE_ParseRemainingSeconds
        ("\x7b\"remainingSeconds\":" ++ toString 90 ++ "\x7d").toList = (90 : Int) ∧
    TSE_ParseRemainingSeconds "\x7b\"remainingSeconds\":90\x7d".toList = 90 ∧
    TSE_ParseRemainingSeconds
      ("\x7b\"ok\":1,".toList ++ "\"remainingSeconds\":".toList ++ (toString 90).toList ++
        ",\"x\":2\x7d".toList) = (90 : Int) :=
  ⟨(TSE_ParseRemainingSeconds_roundtrip 90 (by decide)).1, by decide,
    (TSE_ParseRemainingSeconds_roundtrip 90 (by decide)).2 "\x7b\"ok\":1,".toList
      ",\"x\":2\x7d".toList (by decide) (by decide)⟩

/-- C6 (as stated, refuted): on `{"remainingSeconds":-5}` the value returned
by `TSE_ParseRemainingSeconds` is `-5`, a negative integer. -/
theorem TSE_ParseRemainingSeconds_negative :
    TSE_ParseRemainingSeconds "\x7b\"remainingSeconds\":-5\x7d".toList = -5 ∧
    TSE_ParseRemainingSeconds "\x7b\"remainingSeconds\":-5\x7d".toList < 0 := by
  decide

/-- A digit run beyond `INT_MAX` can come back negative without any minus sign
in the text: on `{"remainingSeconds":2147483648}` the run is worth `2^31` and
the value returned is `-2147483648`; on `{"remainingSeconds":4294967295}` it
is `-1`. -/
theorem TSE_ParseRemainingSeconds_wraps_negative :
    digitRunValue "2147483648\x7d".toList = 2 ^ 31 ∧
    TSE_ParseRemainingSeconds "\x7b\"remainingSeconds\":2147483648\x7d".toList = -2147483648 ∧
    TSE_ParseRemainingSeconds "\x7b\"remainingSeconds\":4294967295\x7d".toList = -1 := by
  decide

/-- C6 (amended): for every response text in which the key is absent, or in
which the text after the first occurrence of the key, once white space and one
optional plus sign are skipped, does not start with a minus sign and has a
leading digit run worth at most `2^31 - 1`, the value returned by
`TSE_ParseRemainingSeconds` is at least `0`. -/
theorem TSE_ParseRemainingSeconds_nonneg (text : List Char)
    (h : ∀ pre r : List Char, FirstOcc "\"remainingSeconds\":".toList text pre r →
      (r.dropWhile isspace).head? ≠ some '-' ∧
        digitRunValue (skipSpacePlus r) ≤ 2 ^ 31 - 1) :
    0 ≤ TSE_ParseRemainingSeconds text := by
  by_cases hk : remainingSecondsKey <:+: text
  · obtain ⟨pre, r, hocc⟩ := exists_firstOcc remainingSecondsKey text hk
    rw [parseRemainingSeconds_of_firstOcc text pre r hocc]
    exact atoi_nonneg r (h pre r hocc).1 (h pre r hocc).2
  · rw [parseRemainingSeconds_of_absent text hk]

/-- C6 (amended), at `{"remainingSeconds":90}`: the key is followed by the
digit run `90`, and the result `90` is not negative. -/
theorem TSE_ParseRemainingSeconds_nonneg_witness :
    (∀ pre r : List Char,
      FirstOcc "\"remainingSeconds\":".toList "\x7b\"remainingSeconds\":90\x7d".toList pre r →
        (r.dropWhile isspace).head? ≠ some '-' ∧
          digitRunValue (skipSpacePlus r) ≤ 2 ^ 31 - 1) ∧
    0 ≤ TSE_ParseRemainingSeconds "\x7b\"remainingSeconds\":90\x7d".toList :=
  have hyp : ∀ pre r : List Char,
      FirstOcc "\"remainingSeconds\":".toList "\x7b\"remainingSeconds\":90\x7d".toList pre r →
        (r.dropWhile isspace).head? ≠ some '-' ∧
          digitRunValue (skipSpacePlus r) ≤ 2 ^ 31 - 1 := by
    intro pre r h
    have h0 := firstOcc_of_unbordered remainingSecondsKey unbordered_remainingSecondsKey
      "\x7b".toList "90\x7d".toList (by decide)
    obtain ⟨-, hr⟩ := firstOcc_unique _ _ _ _ _ _ h h0
    rw [hr]
    decide
  ⟨hyp, TSE_ParseRemainingSeconds_nonneg "\x7b\"remainingSeconds\":90\x7d".toList hyp⟩

/-! ## The time formatter: segments and injectivity -/

/-- C11: for every `s < 2^32`, the output of `TSE_FormatTime s` contains no
`h` exactly when `s < 3600` and no `m` exactly when `s < 60`; for `s ≥ 3600`
with zero minutes the segment `0m` is present. -/
theorem TSE_FormatTime_segments (s : Nat) (hs : s < 2 ^ 32) :
    ('h' ∉ TSE_FormatTime s ↔ s < 3600) ∧
    ('m' ∉ TSE_FormatTime s ↔ s < 60) ∧
    (3600 ≤ s → s % 3600 / 60 = 0 → "0m".toList <:+: TSE_FormatTime s) := by
  have nh : ∀ n : Nat, 'h' ∉ (Nat.repr n).toList := by
    intro n hmem
    have := repr_all_digit n _ hmem
    revert this
    decide
  have nm : ∀ n : Nat, 'm' ∉ (Nat.repr n).toList := by
    intro n hmem
    have := repr_all_digit n _ hmem
    revert this
    decide
  rw [TSE_FormatTime_eq s hs]
  split_ifs with h1 h2
  · refine ⟨?_, ?_, ?_⟩
    · have hin : 'h' ∈ (Nat.repr (s / 3600)).toList ++ "h ".toList ++
          (Nat.repr (s % 3600 / 60)).toList ++ "m ".toList ++ (Nat.repr (s % 60)).toList ++
          "s".toList := by
        simp [String.toList]
      constructor
      · intro hn; exact absurd hin hn
      · intro hlt; omega
    · have hin : 'm' ∈ (Nat.repr (s / 3600)).toList ++ "h ".toList ++
          (Nat.repr (s % 3600 / 60)).toList ++ "m ".toList ++ (Nat.repr (s % 60)).toList ++
          "s".toList := by
        simp [String.toList]
      constructor
      · intro hn; exact absurd hin hn
      · intro hlt; omega
    · intro _ hz
      rw [hz]
      refine ⟨(Nat.repr (s / 3600)).toList ++ "h ".toList,
        ' ' :: ((Nat.repr (s % 60)).toList ++ "s".toList), ?_⟩
      have e0 : (Nat.repr 0).toList = ['0'] := by decide
      rw [e0]
      simp [String.toList]
  · refine ⟨?_, ?_, ?_⟩
    · constructor
      · intro _; omega
      · intro _ hmem
        simp only [List.mem_append] at hmem
        rcases hmem with ((hmem | hmem) | hmem) | hmem
        · exact nh _ hmem
        · revert hmem; decide
        · exact nh _ hmem
        · revert hmem; decide
    · have hin : 'm' ∈ (Nat.repr (s % 3600 / 60)).toList ++ "m ".toList ++
          (Nat.repr (s % 60)).toList ++ "s".toList := by
        simp [String.toList]
      constructor
      · intro hn; exact absurd hin hn
      · intro hlt; omega
    · intro h3600; omega
  · refine ⟨?_, ?_, ?_⟩
    · constructor
      · intro _; omega
      · intro _ hmem
        simp only [List.mem_append] at hmem
        rcases hmem with hmem | hmem
        · exact nh _ hmem
        · revert hmem; decide
    · constructor
      · intro _; omega
      · intro _ hmem
        simp only [List.mem_append] at hmem
        rcases hmem with hmem | hmem
        · exact nm _ hmem
        · revert hmem; decide
    · intro h3600; omega

/-- C11, at `s = 3600`: the output `1h 0m 0s` has an hours segment and the
minutes segment `0m`. -/
theorem TSE_FormatTime_segments_witness :
    3600 < 2 ^ 32 ∧
    (('h' ∉ TSE_FormatTime 3600 ↔ 3600 < 3600) ∧
      ('m' ∉ TSE_FormatTime 3600 ↔ 3600 < 60) ∧
      (3600 ≤ 3600 → 3600 % 3600 / 60 = 0 → "0m".toList <:+: TSE_FormatTime 3600)) :=
  ⟨by decide, TSE_FormatTime_segments 3600 (by decide)⟩

/-- C15: `TSE_FormatTime` is injective on `0..2^32-1`: two seconds values
with the same output are equal. -/
theorem TSE_FormatTime_injective (s1 s2 : Nat) (h1 : s1 < 2 ^ 32) (h2 : s2 < 2 ^ 32)
    (h : TSE_FormatTime s1 = TSE_FormatTime s2) : s1 = s2 := by
  have e1 := decodeTime_formatTime s1 h1
  have e2 := decodeTime_formatTime s2 h2
  rw [h] at e1
  exact e1.symm.trans e2

/-- C15, at `s1 = s2 = 3725`. -/
theorem TSE_FormatTime_injective_witness :
    3725 < 2 ^ 32 ∧ TSE_FormatTime 3725 = TSE_FormatTime 3725 ∧ 3725 = 3725 :=
  ⟨by decide, rfl, TSE_FormatTime_injective 3725 3725 (by decide) (by decide) rfl⟩

/-! ## The label functions -/

/-- C12: `TSE_GetDeviceTypeString` returns `Coffee Machine`, `Bike Lock`,
`Door Lock`, `Power Switch`, `EV Charger` for the five named device types and
`Generic Device` for `DEVICE_GENERIC` and for every other integer value; the
result is never empty. -/
theorem TSE_GetDeviceTypeString_total :
    TSE_GetDeviceTypeString DEVICE_COFFEE_MACHINE.val = "Coffee Machine".toList ∧
    TSE_GetDeviceTypeString DEVICE_BIKE_LOCK.val = "Bike Lock".toList ∧
    TSE_GetDeviceTypeString DEVICE_DOOR_LOCK.val = "Door Lock".toList ∧
    TSE_GetDeviceTypeString DEVICE_POWER_SWITCH.val = "Power Switch".toList ∧
    TSE_GetDeviceTypeString DEVICE_EV_CHARGER.val = "EV Charger".toList ∧
    TSE_GetDeviceTypeString DEVICE_GENERIC.val = "Generic Device".toList ∧
    (∀ v : Int, v ≠ DEVICE_COFFEE_MACHINE.val → v ≠ DEVICE_BIKE_LOCK.val →
      v ≠ DEVICE_DOOR_LOCK.val → v ≠ DEVICE_POWER_SWITCH.val → v ≠ DEVICE_EV_CHARGER.val →
        TSE_GetDeviceTypeString v = "Generic Device".toList) ∧
    (∀ v : Int, TSE_GetDeviceTypeString v ≠ []) := by
  refine ⟨by decide, by decide, by decide, by decide, by decide, by decide, ?_, ?_⟩
  · intro v h0 h1 h2 h3 h4
    unfold TSE_GetDeviceTypeString
    rw [if_neg h0, if_neg h1, if_neg h2, if_neg h3, if_neg h4]
  · intro v
    unfold TSE_GetDeviceTypeString
    split_ifs <;> decide

/-- C12, at the values `6` and `-1`, outside the named set. -/
theorem TSE_GetDeviceTypeString_total_witness :
    TSE_GetDeviceTypeString 6 = "Generic Device".toList ∧
    TSE_GetDeviceTypeString (-1) = "Generic Device".toList :=
  ⟨TSE_GetDeviceTypeString_total.2.2.2.2.2.2.1 6 (by decide) (by decide) (by decide)
      (by decide) (by decide),
    TSE_GetDeviceTypeString_total.2.2.2.2.2.2.1 (-1) (by decide) (by decide) (by decide)
      (by decide) (by decide)⟩

/-- C13: `TSE_GetCurrencyString` returns `TSE (Solana)` for `CURRENCY_TSE`,
`USDC (Base)` for `CURRENCY_USDC`, and `Unknown` for `CURRENCY_UNKNOWN` and for
every other integer value; the result is never empty. -/
theorem TSE_GetCurrencyString_total :
    TSE_GetCurrencyString CURRENCY_TSE.val = "TSE (Solana)".toList ∧
    TSE_GetCurrencyString CURRENCY_USDC.val = "USDC (Base)".toList ∧
    TSE_GetCurrencyString CURRENCY_UNKNOWN.val = "Unknown".toList ∧
    (∀ v : Int, v ≠ CURRENCY_TSE.val → v ≠ CURRENCY_USDC.val →
      TSE_GetCurrencyString v = "Unknown".toList) ∧
    (∀ v : Int, TSE_GetCurrencyString v ≠ []) := by
  refine ⟨by decide, by decide, by decide, ?_, ?_⟩
  · intro v h1 h2
    unfold TSE_GetCurrencyString
    rw [if_neg h1, if_neg h2]
  · intro v
    unfold TSE_GetCurrencyString
    split_ifs <;> decide

/-- C13, at the values `3` and `-1`, outside the named set. -/
theorem TSE_GetCurrencyString_total_witness :
    TSE_GetCurrencyString 3 = "Unknown".toList ∧
    TSE_GetCurrencyString (-1) = "Unknown".toList :=
  ⟨TSE_GetCurrencyString_total.2.2.2.1 3 (by decide) (by decide),
    TSE_GetCurrencyString_total.2.2.2.1 (-1) (by decide) (by decide)⟩

/-- C17: on the named enumerators the label functions are injective: the six
device type labels are pairwise distinct, and so are the three currency
labels. -/
theorem label_functions_injective :
    (∀ a b : TSE_DeviceType,
      TSE_GetDeviceTypeString a.val = TSE_GetDeviceTypeString b.val → a = b) ∧
    (∀ a b : TSE_Currency,
      TSE_GetCurrencyString a.val = TSE_GetCurrencyString b.val → a = b) ∧
    [TSE_GetDeviceTypeString DEVICE_COFFEE_MACHINE.val,
      TSE_GetDeviceTypeString DEVICE_BIKE_LOCK.val,
      TSE_GetDeviceTypeString DEVICE_DOOR_LOCK.val,
      TSE_GetDeviceTypeString DEVICE_POWER_SWITCH.val,
      TSE_GetDeviceTypeString DEVICE_EV_CHARGER.val,
      TSE_GetDeviceTypeString DEVICE_GENERIC.val].Nodup ∧
    [TSE_GetCurrencyString CURRENCY_UNKNOWN.val,
      TSE_GetCurrencyString CURRENCY_TSE.val,
      TSE_GetCurrencyString CURRENCY_USDC.val].Nodup := by
  refine ⟨?_, ?_, by decide, by decide⟩
  · intro a b
    cases a <;> cases b <;> decide
  · intro a b
    cases a <;> cases b <;> decide

/-- C17, at two equal arguments of each function. -/
theorem label_functions_injective_witness :
    DEVICE_BIKE_LOCK = DEVICE_BIKE_LOCK ∧ CURRENCY_TSE = CURRENCY_TSE :=
  ⟨label_functions_injective.1 DEVICE_BIKE_LOCK DEVICE_BIKE_LOCK rfl,
    label_functions_injective.2.1 CURRENCY_TSE CURRENCY_TSE rfl⟩

/-! ## The response parser: repeated keys -/

/-- C16: on a text `p ++ "remainingSeconds": ++ r` where `p` does not contain
the key pattern, `TSE_ParseRemainingSeconds` returns the integer that `atoi`
reads at the start of `r`, the same as without `p`; a second occurrence of the
key later in `r` has no effect. -/
theorem TSE_ParseRemainingSeconds_first_key (p r : List Char)
    (hp : ¬ "\"remainingSeconds\":".toList <:+: p) :
    TSE_ParseRemainingSeconds (p ++ "\"remainingSeconds\":".toList ++ r) = atoi r ∧
    TSE_ParseRemainingSeconds (p ++ "\"remainingSeconds\":".toList ++ r) =
      TSE_ParseRemainingSeconds ("\"remainingSeconds\":".toList ++ r) ∧
    (∀ (n : Nat) (rest : List Char), n ≤ 2 ^ 31 - 1 →
      TSE_ParseRemainingSeconds
        (p ++ "\"remainingSeconds\":".toList ++
          ((toString n).toList ++ ',' :: ("\"remainingSeconds\":".toList ++ rest))) = (n : Int)) := by
  have gen : ∀ q r' : List Char, ¬ "\"remainingSeconds\":".toList <:+: q →
      TSE_ParseRemainingSeconds (q ++ "\"remainingSeconds\":".toList ++ r') = atoi r' := by
    intro q r' hq
    exact parseRemainingSeconds_of_firstOcc _ q r'
      (firstOcc_of_unbordered remainingSecondsKey unbordered_remainingSecondsKey q r' hq)
  refine ⟨gen p r hp, ?_, ?_⟩
  · have h0 := gen [] r (by decide)
    rw [List.nil_append] at h0
    rw [gen p r hp, h0]
  · intro n rest hn
    rw [gen p _ hp]
    exact atoi_toDigits n hn _ (by simp [isdigit])

/-- C16, at `{"remainingSeconds":5,"remainingSeconds":7}`: the result is `5`. -/
theorem TSE_ParseRemainingSeconds_first_key_witness :
    (¬ "\"remainingSeconds\":".toList <:+: "\x7b".toList) ∧
    TSE_ParseRemainingSeconds
      ("\x7b".toList ++ "\"remainingSeconds\":".toList ++
        "5,\"remainingSeconds\":7\x7d".toList) = atoi "5,\"remainingSeconds\":7\x7d".toList ∧
    atoi "5,\"remainingSeconds\":7\x7d".toList = 5 ∧
    TSE_ParseRemainingSeconds "\x7b\"remainingSeconds\":5,\"remainingSeconds\":7\x7d".toList = 5 :=
  ⟨by decide,
    (TSE_ParseRemainingSeconds_first_key "\x7b".toList "5,\"remainingSeconds\":7\x7d".toList
      (by decide)).1,
    by decide, by decide⟩

/-! ## The session state machine -/

/-- C14: starting in status `None`, a poll at time `now` whose response has
`accessGranted:true` and `remainingSeconds:10` moves the status to `Active`
and fires the status-change callback exactly once; an evaluation at a time
`t` past `now + 10` then moves the status to `Expired` and fires the callback
exactly once more; an end request from any status other than `None` leaves
the status `Ended`. -/
theorem session_lifecycle (response : List Char) (now t : Nat)
    (hg : TSE_ParseAccessGranted response = true)
    (hr : TSE_ParseRemainingSeconds response = 10)
    (ht : now + 10 < t) :
    (step Machine.initial (Event.poll response now)).status = SESSION_ACTIVE ∧
    (step Machine.initial (Event.poll response now)).fired = [(SESSION_ACTIVE, 10)] ∧
    (step (step Machine.initial (Event.poll response now)) (Event.tick t)).status =
      SESSION_EXPIRED ∧
    (step (step Machine.initial (Event.poll response now)) (Event.tick t)).fired =
      [(SESSION_ACTIVE, 10), (SESSION_EXPIRED, 0)] ∧
    (∀ m : Machine, m.status ≠ SESSION_NONE →
      (step m Event.endRequest).status = SESSION_ENDED) := by
  have hexp : ((now : Int) + 10).toNat ≤ t := by omega
  have h1 : step Machine.initial (Event.poll response now) =
      { status := SESSION_ACTIVE,
        session := updateSession Machine.initial.session response now,
        fired := [(SESSION_ACTIVE, 10)] } := by
    simp [step, updateSession, hg, hr, Machine.initial]
  have hses : (updateSession Machine.initial.session response now).expiresAt =
      ((now : Int) + 10).toNat := by
    simp [updateSession, hg, hr]
  refine ⟨by rw [h1], by rw [h1], ?_, ?_, ?_⟩
  · rw [h1]
    simp only [step, hses, if_pos hexp]
  · rw [h1]
    simp only [step, hses, if_pos hexp, List.singleton_append]
  · intro m hm
    unfold step
    cases hs : m.status <;> simp_all

/-- C14, at the response `{"accessGranted":true,"remainingSeconds":10}`
received at time `100` and an evaluation at time `111`. -/
theorem session_lifecycle_witness :
    TSE_ParseAccessGranted "\x7b\"accessGranted\":true,\"remainingSeconds\":10\x7d".toList = true ∧
    TSE_ParseRemainingSeconds
      "\x7b\"accessGranted\":true,\"remainingSeconds\":10\x7d".toList = 10 ∧
    100 + 10 < 111 ∧
    (step (step Machine.initial
      (Event.poll "\x7b\"accessGranted\":true,\"remainingSeconds\":10\x7d".toList 100))
      (Event.tick 111)).status = SESSION_EXPIRED :=
  ⟨by decide, by decide, by decide,
    (session_lifecycle "\x7b\"accessGranted\":true,\"remainingSeconds\":10\x7d".toList 100 111
      (by decide) (by decide) (by decide)).2.2.1⟩

end TSE
